import Mathlib

/-!
Verification development for the curve-based image rectification program
`correcao_curva.py` (repository TF_visao).

The embedding models the numeric core of the program over exact rationals:

* `ponto_bezier`       — `ImageViewer.ponto_bezier` (cubic Bernstein evaluation,
  identical to the inner helper of `gerar_malha_12x12`);
* `amostrar_curva`     — the inner `amostrar_curva` of `gerar_malha_12x12`
  (`np.linspace(0, 1, n)` gives the parameters `k/(n-1)`);
* `gerar_malha_12x12`  — `ImageViewer.gerar_malha_12x12`;
* `remapPixel` / `gerar_mapas_remap` — the per-pixel body and the double loop of
  the module-level function `gerar_mapas_remap`;
* `itemChange`         — the net effect of `ControlPoint.itemChange` on the 12
  control-point positions when one point is assigned a new position;
* `splitext` / `nome_salvar` — `os.path.splitext` (posixpath algorithm) and the
  output file name formed in `ImageViewer.processar_remapeamento`.

Python-level behaviour that matters to the claims is modelled explicitly:
`int()` truncates toward zero (`pyInt`), `np.clip(x, lo, hi)` is
`min hi (max x lo)` (`npClip`, note `lo` wins only below `hi`), Python list
indexing accepts negative indices by wrapping once from the end (`pyGet`), and
a raised exception is an `Except.error` (`PyErr`): `valueError` for
`np.zeros` with a negative dimension, `zeroDiv` for division by zero,
`indexError` for an out-of-range list index.  The source performs no
configuration validation, and consequently no configuration-error outcome
exists in the model.
-/

/-- Python exception outcomes reachable in the modelled code. -/
inductive PyErr : Type where
  | valueError : PyErr
  | zeroDiv : PyErr
  | indexError : PyErr
deriving DecidableEq, Repr

/-- Python `int()` on a float value: truncation toward zero. -/
def pyInt (q : ℚ) : ℤ := if 0 ≤ q then ⌊q⌋ else ⌈q⌉

/-- `np.clip(x, lo, hi)` on integers: `min hi (max x lo)` (the upper bound is
applied last, so an inverted range `lo > hi` yields `hi`). -/
def npClip (x lo hi : ℤ) : ℤ := min hi (max x lo)

/-- Python list indexing `xs[i]`: a negative index wraps once from the end;
anything still out of range is an `IndexError` (`none`). -/
def pyGet {α : Type} (xs : List α) (i : ℤ) : Option α :=
  let n : ℤ := xs.length
  let j : ℤ := if i < 0 then i + n else i
  if 0 ≤ j ∧ j < n then xs.get? j.toNat else none

/-- Python `malha[j][i]` on a list of lists. -/
def pyGet2 (xss : List (List (ℚ × ℚ))) (j i : ℤ) : Option (ℚ × ℚ) :=
  match pyGet xss j with
  | some row => pyGet row i
  | none => none

/-- Reading one mesh point inside the pixel loop: an out-of-range access is a
Python `IndexError`. -/
def fetchPt (malha : List (List (ℚ × ℚ))) (j i : ℤ) : Except PyErr (ℚ × ℚ) :=
  match pyGet2 malha j i with
  | some p => Except.ok p
  | none => Except.error PyErr.indexError

/-- Left-to-right effectful map: the Python `for` loop filling an array,
aborting at the first raised exception. -/
def mapME {α β : Type} (f : α → Except PyErr β) : List α → Except PyErr (List β)
  | [] => Except.ok []
  | a :: l =>
      (f a).bind fun b => (mapME f l).bind fun bs => Except.ok (b :: bs)

/-- `ImageViewer.ponto_bezier`: cubic Bernstein evaluation, applied per
coordinate axis (`QPointF` arithmetic is componentwise). -/
def ponto_bezier (p0 p1 p2 p3 : ℚ × ℚ) (t : ℚ) : ℚ × ℚ :=
  ((1 - t) ^ 3) • p0 + (3 * (1 - t) ^ 2 * t) • p1 +
    (3 * (1 - t) * t ^ 2) • p2 + (t ^ 3) • p3

/-- A cubic segment: the 4 control points in traversal order. -/
def Curva : Type := (ℚ × ℚ) × (ℚ × ℚ) × (ℚ × ℚ) × (ℚ × ℚ)

/-- `tuple(reversed(curva))` on a 4-tuple of points. -/
def reverse4 (c : Curva) : Curva := (c.2.2.2, c.2.2.1, c.2.1, c.1)

/-- The inner `amostrar_curva` of `gerar_malha_12x12`:
`np.linspace(0, 1, n)` samples the curve at `t = k/(n-1)`. -/
def amostrar_curva (c : Curva) (n : ℕ) : List (ℚ × ℚ) :=
  (List.range n).map fun (k : ℕ) =>
    ponto_bezier c.1 c.2.1 c.2.2.1 c.2.2.2 ((k : ℚ) / ((n : ℚ) - 1))

/-- `ImageViewer.gerar_malha_12x12`: the four cubic segments are
`(p[i], p[i+1], p[i+2], p[(i+3) % 12])` for `i = 0, 3, 6, 9`; the bottom and
left segments are reversed; the top and (reversed) bottom segments are sampled
into 12 points each, and row `j` of the mesh blends them with
`alpha = j / 11`. -/
def gerar_malha_12x12 (P : Fin 12 → ℚ × ℚ) : List (List (ℚ × ℚ)) :=
  let curva_topo : Curva := (P 0, P 1, P 2, P 3)
  let curva_direita : Curva := (P 3, P 4, P 5, P 6)
  let curva_base : Curva := (P 6, P 7, P 8, P 9)
  let curva_esquerda : Curva := (P 9, P 10, P 11, P 0)
  let _ := curva_direita
  let curva_esquerda := reverse4 curva_esquerda
  let _ := curva_esquerda
  let curva_base := reverse4 curva_base
  let amostras_topo := amostrar_curva curva_topo 12
  let amostras_base := amostrar_curva curva_base 12
  (List.range 12).map fun (j : ℕ) =>
    (List.range 12).map fun (i : ℕ) =>
      let alpha : ℚ := (j : ℚ) / 11
      let pt_top := amostras_topo.getD i 0
      let pt_bot := amostras_base.getD i 0
      (1 - alpha) • pt_top + alpha • pt_bot

/-- The body of the pixel loop of `gerar_mapas_remap`, for destination pixel
`(u_out, v_out)`: cell coordinates, truncation, fractional offsets, clamp,
the four mesh fetches, the rescaling of each fetched point to source
coordinates (division by `nova_W_pyqt` / `nova_H_pyqt`), and the bilinear
interpolation. -/
def remapPixel (malha : List (List (ℚ × ℚ))) (nW nH oW oH Nc Nr : ℤ)
    (u_out v_out : ℕ) : Except PyErr (ℚ × ℚ) :=
  let i_float : ℚ := (u_out : ℚ) * ((Nc : ℚ) - 1) / (oW : ℚ)
  let j_float : ℚ := (v_out : ℚ) * ((Nr : ℚ) - 1) / (oH : ℚ)
  let i_int0 : ℤ := pyInt i_float
  let j_int0 : ℤ := pyInt j_float
  let fx : ℚ := i_float - (i_int0 : ℚ)
  let fy : ℚ := j_float - (j_int0 : ℚ)
  let i_int : ℤ := npClip i_int0 0 (Nc - 2)
  let j_int : ℤ := npClip j_int0 0 (Nr - 2)
  (fetchPt malha j_int i_int).bind fun p00 =>
  if nW = 0 ∨ nH = 0 then Except.error PyErr.zeroDiv else
  (fetchPt malha j_int (i_int + 1)).bind fun p10 =>
  (fetchPt malha (j_int + 1) i_int).bind fun p01 =>
  (fetchPt malha (j_int + 1) (i_int + 1)).bind fun p11 =>
  let x00 : ℚ := p00.1 * (oW : ℚ) / (nW : ℚ)
  let y00 : ℚ := p00.2 * (oH : ℚ) / (nH : ℚ)
  let x10 : ℚ := p10.1 * (oW : ℚ) / (nW : ℚ)
  let y10 : ℚ := p10.2 * (oH : ℚ) / (nH : ℚ)
  let x01 : ℚ := p01.1 * (oW : ℚ) / (nW : ℚ)
  let y01 : ℚ := p01.2 * (oH : ℚ) / (nH : ℚ)
  let x11 : ℚ := p11.1 * (oW : ℚ) / (nW : ℚ)
  let y11 : ℚ := p11.2 * (oH : ℚ) / (nH : ℚ)
  let x_top : ℚ := x00 * (1 - fx) + x10 * fx
  let y_top : ℚ := y00 * (1 - fx) + y10 * fx
  let x_bottom : ℚ := x01 * (1 - fx) + x11 * fx
  let y_bottom : ℚ := y01 * (1 - fx) + y11 * fx
  let x : ℚ := x_top * (1 - fy) + x_bottom * fy
  let y : ℚ := y_top * (1 - fy) + y_bottom * fy
  Except.ok (x, y)

/-- Module-level `gerar_mapas_remap`: `np.zeros((orig_H_cv, orig_W_cv))`
raises `ValueError` on a negative dimension; otherwise the double loop over
`v_out ∈ range(orig_H_cv)`, `u_out ∈ range(orig_W_cv)` fills the two maps,
returned as `(map_x, map_y)` with `map_x[v][u]` / `map_y[v][u]` the two
components of the pixel computation. -/
def gerar_mapas_remap (malha : List (List (ℚ × ℚ))) (nW nH oW oH Nc Nr : ℤ) :
    Except PyErr (List (List ℚ) × List (List ℚ)) :=
  if oH < 0 ∨ oW < 0 then Except.error PyErr.valueError
  else
    (mapME (fun v =>
        mapME (fun u => remapPixel malha nW nH oW oH Nc Nr u v)
          (List.range oW.toNat))
      (List.range oH.toNat)).bind fun rows =>
      Except.ok (rows.map (fun r => r.map Prod.fst),
                 rows.map (fun r => r.map Prod.snd))

/-- `ControlPoint.itemChange`, net effect on the 12 positions when the point of
index `idx` is assigned the new position `value`: if `idx` is a corner
(`idx % 3 == 0`), the two neighbouring handles `(idx+1) % 12` and
`(idx-1) % 12` are additionally moved by the same delta `value - pos(idx)`;
every other point keeps its position. -/
def itemChange (pontos : Fin 12 → ℚ × ℚ) (idx : Fin 12) (value : ℚ × ℚ) :
    Fin 12 → ℚ × ℚ :=
  fun j =>
    if idx.val % 3 = 0 ∧
        (j.val = (idx.val + 1) % 12 ∨ j.val = (idx.val + 11) % 12) then
      pontos j + (value - pontos idx)
    else if j = idx then value
    else pontos j

/-- Python `str.rfind` restricted to a single character: the highest index at
which the character occurs, `-1` when absent. -/
def rfindChar (cs : List Char) (c : Char) : ℤ :=
  match cs.reverse.findIdx? (fun d => d = c) with
  | some k => (cs.length : ℤ) - 1 - (k : ℤ)
  | none => -1

/-- `os.path.splitext` (posixpath algorithm, separator `/`, extension
separator `.`): split at the last dot if it lies after the last slash and the
basename has at least one non-dot character before it; otherwise the extension
is empty. -/
def splitext (p : String) : String × String :=
  let cs := p.data
  let sepIndex := rfindChar cs '/'
  let dotIndex := rfindChar cs '.'
  if sepIndex < dotIndex then
    if ((List.range (dotIndex - (sepIndex + 1)).toNat).all fun t =>
        cs.getD ((sepIndex + 1).toNat + t) '.' = '.') then
      (p, "")
    else
      (String.mk (cs.take dotIndex.toNat), String.mk (cs.drop dotIndex.toNat))
  else (p, "")

/-- Output file name formed in `ImageViewer.processar_remapeamento`:
`base, ext = os.path.splitext(path)` and the saved name is
`base + "_corrigida" + ext`. -/
def nome_salvar (p : String) : String :=
  (splitext p).1 ++ "_corrigida" ++ (splitext p).2

/-- Follows the spec's words for the refinement claim on equal display and
source dimensions: the per-pixel body of a variant generator that omits the
display-to-source rescaling step, bilinearly interpolating the four fetched
mesh points as they are. -/
def remapPixel_noscale (malha : List (List (ℚ × ℚ))) (oW oH Nc Nr : ℤ)
    (u_out v_out : ℕ) : Except PyErr (ℚ × ℚ) :=
  let i_float : ℚ := (u_out : ℚ) * ((Nc : ℚ) - 1) / (oW : ℚ)
  let j_float : ℚ := (v_out : ℚ) * ((Nr : ℚ) - 1) / (oH : ℚ)
  let i_int0 : ℤ := pyInt i_float
  let j_int0 : ℤ := pyInt j_float
  let fx : ℚ := i_float - (i_int0 : ℚ)
  let fy : ℚ := j_float - (j_int0 : ℚ)
  let i_int : ℤ := npClip i_int0 0 (Nc - 2)
  let j_int : ℤ := npClip j_int0 0 (Nr - 2)
  (fetchPt malha j_int i_int).bind fun p00 =>
  (fetchPt malha j_int (i_int + 1)).bind fun p10 =>
  (fetchPt malha (j_int + 1) i_int).bind fun p01 =>
  (fetchPt malha (j_int + 1) (i_int + 1)).bind fun p11 =>
  let x_top : ℚ := p00.1 * (1 - fx) + p10.1 * fx
  let y_top : ℚ := p00.2 * (1 - fx) + p10.2 * fx
  let x_bottom : ℚ := p01.1 * (1 - fx) + p11.1 * fx
  let y_bottom : ℚ := p01.2 * (1 - fx) + p11.2 * fx
  let x : ℚ := x_top * (1 - fy) + x_bottom * fy
  let y : ℚ := y_top * (1 - fy) + y_bottom * fy
  Except.ok (x, y)

/-- Follows the spec's words: the pure bilinear expansion of the mesh with no
coordinate rescaling, over the same destination pixel grid. -/
def gerar_mapas_remap_noscale (malha : List (List (ℚ × ℚ))) (oW oH Nc Nr : ℤ) :
    Except PyErr (List (List ℚ) × List (List ℚ)) :=
  if oH < 0 ∨ oW < 0 then Except.error PyErr.valueError
  else
    (mapME (fun v =>
        mapME (fun u => remapPixel_noscale malha oW oH Nc Nr u v)
          (List.range oW.toNat))
      (List.range oH.toNat)).bind fun rows =>
      Except.ok (rows.map (fun r => r.map Prod.fst),
                 rows.map (fun r => r.map Prod.snd))

/-- The boundary loop of the end-to-end identity scenario: corner points at the
corners of a 100×100 image, and handle points placed collinearly at 1/3 and
2/3 of each straight edge. -/
def loopC2 : Fin 12 → ℚ × ℚ :=
  ![(0, 0), (100/3, 0), (200/3, 0), (100, 0),
    (100, 100/3), (100, 200/3), (100, 100),
    (200/3, 100), (100/3, 100), (0, 100),
    (0, 200/3), (0, 100/3)]

/-- The 12×12 uniform grid spanning the 100×100 square: the mesh that
`gerar_malha_12x12` produces from `loopC2`. -/
def straightMesh : List (List (ℚ × ℚ)) :=
  (List.range 12).map fun j =>
    (List.range 12).map fun i => ((100 * (i : ℚ)) / 11, (100 * (j : ℚ)) / 11)

/-- A concrete 12-point configuration used by witnesses. -/
def demoPontos : Fin 12 → ℚ × ℚ := fun j => ((j.val : ℚ), ((j.val : ℚ) + 1))

/-! ## General helper lemmas -/

instance {ε α : Type} [DecidableEq ε] [DecidableEq α] :
    DecidableEq (Except ε α) := fun x y =>
  match x, y with
  | Except.ok a, Except.ok b =>
      if h : a = b then Decidable.isTrue (congrArg Except.ok h)
      else Decidable.isFalse fun hh => h (Except.ok.inj hh)
  | Except.error e, Except.error f =>
      if h : e = f then Decidable.isTrue (congrArg Except.error h)
      else Decidable.isFalse fun hh => h (Except.error.inj hh)
  | Except.ok _, Except.error _ => Decidable.isFalse fun hh => Except.noConfusion hh
  | Except.error _, Except.ok _ => Decidable.isFalse fun hh => Except.noConfusion hh

theorem except_bind_ok {α β : Type} (a : α) (f : α → Except PyErr β) :
    (Except.ok a : Except PyErr α).bind f = f a := rfl

theorem except_bind_error {α β : Type} (e : PyErr) (f : α → Except PyErr β) :
    (Except.error e : Except PyErr α).bind f = Except.error e := rfl

theorem mapME_congr {α β : Type} {f g : α → Except PyErr β} :
    ∀ l : List α, (∀ x ∈ l, f x = g x) → mapME f l = mapME g l
  | [], _ => rfl
  | a :: l, h => by
      simp only [mapME, h a (List.mem_cons_self a l),
        mapME_congr l fun x hx => h x (List.mem_cons_of_mem a hx)]

theorem mapME_ok_map {α β : Type} {f : α → Except PyErr β} {g : α → β} :
    ∀ l : List α, (∀ x ∈ l, f x = Except.ok (g x)) →
      mapME f l = Except.ok (l.map g)
  | [], _ => rfl
  | a :: l, h => by
      simp only [mapME, h a (List.mem_cons_self a l),
        mapME_ok_map l fun x hx => h x (List.mem_cons_of_mem a hx),
        except_bind_ok, List.map_cons]

theorem mapME_ok_exists {α β : Type} {f : α → Except PyErr β} {p : β → Prop} :
    ∀ l : List α, (∀ x ∈ l, ∃ y, f x = Except.ok y ∧ p y) →
      ∃ ys, mapME f l = Except.ok ys ∧ ys.length = l.length ∧ ∀ y ∈ ys, p y
  | [], _ => ⟨[], rfl, rfl, by simp⟩
  | a :: l, h => by
      obtain ⟨b, hb, hpb⟩ := h a (List.mem_cons_self a l)
      obtain ⟨bs, hbs, hlen, hall⟩ :=
        mapME_ok_exists l fun x hx => h x (List.mem_cons_of_mem a hx)
      refine ⟨b :: bs, ?_, by simp [hlen], ?_⟩
      · simp only [mapME, hb, hbs, except_bind_ok]
      · intro y hy
        rcases List.mem_cons.1 hy with hy | hy
        · exact hy ▸ hpb
        · exact hall y hy

theorem getD_range_map {α : Type _} (f : ℕ → α) (d : α) (n k : ℕ) (h : k < n) :
    ((List.range n).map f).getD k d = f k := by
  rw [List.getD_eq_getElem?_getD, List.getElem?_map, List.getElem?_range h]
  rfl

theorem pyGet_nat {α : Type} (xs : List α) (k : ℕ) (h : k < xs.length) :
    pyGet xs (k : ℤ) = xs.get? k := by
  have h1 : ¬((k : ℤ) < 0) := by omega
  simp only [pyGet, h1, if_false]
  rw [if_pos ⟨by omega, by exact_mod_cast h⟩]
  simp

/-- The four Bernstein basis polynomials of the reversed control polygon at `t`
are those of the original polygon at `1 - t`. -/
theorem ponto_bezier_reverse (p0 p1 p2 p3 : ℚ × ℚ) (t : ℚ) :
    ponto_bezier p3 p2 p1 p0 t = ponto_bezier p0 p1 p2 p3 (1 - t) := by
  unfold ponto_bezier
  refine Prod.ext ?_ ?_ <;>
    simp only [Prod.fst_add, Prod.snd_add, Prod.smul_fst, Prod.smul_snd,
      smul_eq_mul] <;> ring

/-! ## Claim theorems -/

/-- Claim C1 — the code contradicts the claimed validation.  With mesh
resolution `N_cols = N_rows = 1` (violating `N ≥ 2`) and positive image
dimensions, `gerar_mapas_remap` raises no error whatsoever: `np.clip` with the
inverted range `(0, -1)` returns index `-1`, Python's negative list indexing
silently wraps to the last mesh row/column, and the call returns a computed
result (here the constant map `(1, 1)`) instead of failing with a
configuration error. -/
theorem gerar_mapas_remap_no_validation :
    gerar_mapas_remap [[(0, 0), (1, 0)], [(0, 1), (1, 1)]] 2 2 2 2 1 1 =
      Except.ok ([[1, 1], [1, 1]], [[1, 1], [1, 1]]) := by
  with_unfolding_all decide

/-- Claim C6: assigning a corner control point (index divisible by 3) the new
position `P idx + d` moves that corner by `d`, moves exactly its two
immediately adjacent handle points (indices `(idx+1) % 12` and
`(idx-1) % 12`) by the same `d`, and leaves every other control point
unchanged. -/
theorem corner_move_couples_adjacent_handles (P : Fin 12 → ℚ × ℚ)
    (idx : Fin 12) (d : ℚ × ℚ) (hc : idx.val % 3 = 0) :
    (itemChange P idx (P idx + d)) idx = P idx + d ∧
    (∀ j : Fin 12,
      j.val = (idx.val + 1) % 12 ∨ j.val = (idx.val + 11) % 12 →
      (itemChange P idx (P idx + d)) j = P j + d) ∧
    (∀ j : Fin 12, j ≠ idx → j.val ≠ (idx.val + 1) % 12 →
      j.val ≠ (idx.val + 11) % 12 → (itemChange P idx (P idx + d)) j = P j) := by
  have hlt := idx.isLt
  refine ⟨?_, ?_, ?_⟩
  · unfold itemChange
    rw [if_neg (by rintro ⟨-, h | h⟩ <;> omega), if_pos rfl]
  · intro j hj
    unfold itemChange
    rw [if_pos ⟨hc, hj⟩, add_sub_cancel_left]
  · intro j h1 h2 h3
    unfold itemChange
    rw [if_neg (by rintro ⟨-, h | h⟩ <;> [exact h2 h; exact h3 h]), if_neg h1]

/-- Claim C6 witness: the theorem applied at the concrete corner of index 0 of
a concrete configuration, moved by `(2, 3)`. -/
theorem corner_move_couples_adjacent_handles_witness :
    (0 : Fin 12).val % 3 = 0 ∧
    ((itemChange demoPontos 0 (demoPontos 0 + (2, 3))) 0 =
        demoPontos 0 + (2, 3) ∧
      (∀ j : Fin 12,
        j.val = ((0 : Fin 12).val + 1) % 12 ∨
          j.val = ((0 : Fin 12).val + 11) % 12 →
        (itemChange demoPontos 0 (demoPontos 0 + (2, 3))) j = demoPontos j + (2, 3)) ∧
      (∀ j : Fin 12, j ≠ 0 → j.val ≠ ((0 : Fin 12).val + 1) % 12 →
        j.val ≠ ((0 : Fin 12).val + 11) % 12 →
        (itemChange demoPontos 0 (demoPontos 0 + (2, 3))) j = demoPontos j)) :=
  ⟨rfl, corner_move_couples_adjacent_handles demoPontos 0 (2, 3) rfl⟩

/-- Claim C7: for every `t ∈ [0, 1]` the cubic Bernstein evaluation
`ponto_bezier p0 p1 p2 p3 t` lies in the convex hull of the four control
points. -/
theorem ponto_bezier_mem_convexHull (p0 p1 p2 p3 : ℚ × ℚ) (t : ℚ)
    (h0 : 0 ≤ t) (h1 : t ≤ 1) :
    ponto_bezier p0 p1 p2 p3 t ∈
      convexHull ℚ ({p0, p1, p2, p3} : Set (ℚ × ℚ)) := by
  have ht : 0 ≤ 1 - t := by linarith
  have hmem : ∑ i : Fin 4,
      (![(1 - t) ^ 3, 3 * (1 - t) ^ 2 * t, 3 * (1 - t) * t ^ 2, t ^ 3] i) •
        (![p0, p1, p2, p3] i) ∈
      convexHull ℚ ({p0, p1, p2, p3} : Set (ℚ × ℚ)) := by
    apply (convex_convexHull ℚ _).sum_mem
    · intro i _
      fin_cases i
      · exact pow_nonneg ht 3
      · exact mul_nonneg (mul_nonneg (by norm_num) (pow_nonneg ht 2)) h0
      · exact mul_nonneg (mul_nonneg (by norm_num) ht) (pow_nonneg h0 2)
      · exact pow_nonneg h0 3
    · simp [Fin.sum_univ_four]
      ring
    · intro i _
      apply subset_convexHull
      fin_cases i <;> simp
  have heq : ponto_bezier p0 p1 p2 p3 t = ∑ i : Fin 4,
      (![(1 - t) ^ 3, 3 * (1 - t) ^ 2 * t, 3 * (1 - t) * t ^ 2, t ^ 3] i) •
        (![p0, p1, p2, p3] i) := by
    simp [ponto_bezier, Fin.sum_univ_four]
  rw [heq]
  exact hmem

/-- Claim C7 witness: the theorem applied at `t = 1/2` with the concrete unit
square control points. -/
theorem ponto_bezier_mem_convexHull_witness :
    (0 : ℚ) ≤ 1 / 2 ∧ (1 / 2 : ℚ) ≤ 1 ∧
    ponto_bezier (0, 0) (1, 0) (1, 1) (0, 1) (1 / 2) ∈
      convexHull ℚ ({(0, 0), (1, 0), (1, 1), (0, 1)} : Set (ℚ × ℚ)) :=
  ⟨by norm_num, by norm_num,
    ponto_bezier_mem_convexHull (0, 0) (1, 0) (1, 1) (0, 1) (1 / 2)
      (by norm_num) (by norm_num)⟩

/-- Claim C9 — counterexample to the claimed suffix.  The code forms the saved
name with the Portuguese suffix `_corrigida`: for the source path `img.png`
the saved name is `img_corrigida.png`, not `img_corrected.png`. -/
theorem nome_salvar_uses_corrigida_not_corrected :
    nome_salvar "img.png" = "img_corrigida.png" ∧
    nome_salvar "img.png" ≠ "img_corrected.png" := by
  with_unfolding_all decide

/-- Claim C9 (amended): the saved name is formed by inserting the suffix
`_corrigida` between the path-without-extension and the extension returned by
`os.path.splitext`; the two splitext parts always reconstruct the original
path, so the suffix is genuinely inserted inside the original name. -/
theorem nome_salvar_inserts_corrigida (p : String) :
    (splitext p).1 ++ (splitext p).2 = p ∧
    nome_salvar p = (splitext p).1 ++ "_corrigida" ++ (splitext p).2 := by
  refine ⟨?_, rfl⟩
  have hmk : ∀ l1 l2 : List Char,
      String.mk l1 ++ String.mk l2 = String.mk (l1 ++ l2) := fun l1 l2 => rfl
  simp only [splitext]
  split_ifs
  · exact String.append_empty p
  · show String.mk _ ++ String.mk _ = p
    rw [hmk, List.take_append_drop]
  · exact String.append_empty p

/-- Claim C3: row 0 of the mesh produced by `gerar_malha_12x12` holds the 12
samples of the top curve (points 0,1,2,3) at `t = i/11`, and row 11 holds the
12 samples of the bottom curve (points 6,7,8,9) traversed in reversed order —
column `i` is the bottom sample at `t = (11-i)/11` — for every column `i`. -/
theorem mesh_rows_sample_top_and_bottom (P : Fin 12 → ℚ × ℚ) (i : ℕ)
    (hi : i < 12) :
    ((gerar_malha_12x12 P).getD 0 []).getD i 0 =
      ponto_bezier (P 0) (P 1) (P 2) (P 3) ((i : ℚ) / 11) ∧
    ((gerar_malha_12x12 P).getD 11 []).getD i 0 =
      ponto_bezier (P 6) (P 7) (P 8) (P 9) ((11 - (i : ℚ)) / 11) := by
  simp only [gerar_malha_12x12, reverse4, amostrar_curva]
  constructor
  · rw [getD_range_map _ _ 12 0 (by norm_num), getD_range_map _ _ 12 i hi,
      getD_range_map _ _ 12 i hi]
    simp only [Nat.cast_zero, zero_div, sub_zero, one_smul, zero_smul, add_zero]
    congr 1
    norm_num
  · rw [getD_range_map _ _ 12 11 (by norm_num), getD_range_map _ _ 12 i hi,
      getD_range_map _ _ 12 i hi, getD_range_map _ _ 12 i hi]
    have h1 : ((11 : ℕ) : ℚ) / 11 = 1 := by norm_num
    rw [h1, sub_self, zero_smul, one_smul, zero_add, ponto_bezier_reverse]
    congr 1
    push_cast
    ring

/-- Claim C3 witness: the theorem applied at a concrete configuration and
column 5. -/
theorem mesh_rows_sample_top_and_bottom_witness :
    5 < 12 ∧
    (((gerar_malha_12x12 demoPontos).getD 0 []).getD 5 0 =
      ponto_bezier (demoPontos 0) (demoPontos 1) (demoPontos 2) (demoPontos 3)
        ((5 : ℚ) / 11) ∧
    ((gerar_malha_12x12 demoPontos).getD 11 []).getD 5 0 =
      ponto_bezier (demoPontos 6) (demoPontos 7) (demoPontos 8) (demoPontos 9)
        ((11 - (5 : ℚ)) / 11)) :=
  ⟨by norm_num, by
    have h := mesh_rows_sample_top_and_bottom demoPontos 5 (by norm_num)
    convert h using 4⟩

/-- Claim C4: two boundary loops that agree on every control point except
possibly the interior handles of the right and left segments (indices
4, 5, 10, 11) produce identical 12×12 meshes. -/
theorem mesh_ignores_lateral_handles (P Q : Fin 12 → ℚ × ℚ)
    (h : ∀ j : Fin 12, j ≠ 4 → j ≠ 5 → j ≠ 10 → j ≠ 11 → P j = Q j) :
    gerar_malha_12x12 P = gerar_malha_12x12 Q := by
  simp only [gerar_malha_12x12, reverse4]
  rw [h 0 (by decide) (by decide) (by decide) (by decide),
    h 1 (by decide) (by decide) (by decide) (by decide),
    h 2 (by decide) (by decide) (by decide) (by decide),
    h 3 (by decide) (by decide) (by decide) (by decide),
    h 6 (by decide) (by decide) (by decide) (by decide),
    h 7 (by decide) (by decide) (by decide) (by decide),
    h 8 (by decide) (by decide) (by decide) (by decide),
    h 9 (by decide) (by decide) (by decide) (by decide)]

/-- Claim C4 witness: the theorem applied to a concrete configuration and the
same configuration with its point of index 4 (a right-segment handle)
displaced. -/
theorem mesh_ignores_lateral_handles_witness :
    (∀ j : Fin 12, j ≠ 4 → j ≠ 5 → j ≠ 10 → j ≠ 11 →
      demoPontos j = Function.update demoPontos 4 (50, 60) j) ∧
    gerar_malha_12x12 demoPontos =
      gerar_malha_12x12 (Function.update demoPontos 4 (50, 60)) :=
  ⟨fun _ h4 _ _ _ => (Function.update_noteq h4 _ _).symm,
   mesh_ignores_lateral_handles _ _
     fun _ h4 _ _ _ => (Function.update_noteq h4 _ _).symm⟩

/-- One axis of the C10 cell-index argument: for `N ≥ 2`, `W ≥ 1` and a pixel
coordinate `w < W`, the truncated cell coordinate already lies in `[0, N-2]`,
the `np.clip` is the identity on it, and the fractional offset lies in
`[0, 1)`. -/
theorem cell_axis_bounds (N W : ℤ) (w : ℕ) (hN : 2 ≤ N) (hW : 1 ≤ W)
    (hw : (w : ℤ) < W) :
    0 ≤ pyInt ((w : ℚ) * ((N : ℚ) - 1) / (W : ℚ)) ∧
    pyInt ((w : ℚ) * ((N : ℚ) - 1) / (W : ℚ)) ≤ N - 2 ∧
    npClip (pyInt ((w : ℚ) * ((N : ℚ) - 1) / (W : ℚ))) 0 (N - 2) =
      pyInt ((w : ℚ) * ((N : ℚ) - 1) / (W : ℚ)) ∧
    0 ≤ (w : ℚ) * ((N : ℚ) - 1) / (W : ℚ) -
        (pyInt ((w : ℚ) * ((N : ℚ) - 1) / (W : ℚ)) : ℚ) ∧
    (w : ℚ) * ((N : ℚ) - 1) / (W : ℚ) -
        (pyInt ((w : ℚ) * ((N : ℚ) - 1) / (W : ℚ)) : ℚ) < 1 := by
  have hW' : (0 : ℚ) < (W : ℚ) := by exact_mod_cast lt_of_lt_of_le one_pos hW
  have hN1 : (1 : ℚ) ≤ (N : ℚ) - 1 := by
    have : ((2 : ℤ) : ℚ) ≤ (N : ℚ) := by exact_mod_cast hN
    push_cast at this ⊢
    linarith
  have hq0 : 0 ≤ (w : ℚ) * ((N : ℚ) - 1) / (W : ℚ) :=
    div_nonneg (mul_nonneg (by positivity) (by linarith)) (le_of_lt hW')
  have hpy : pyInt ((w : ℚ) * ((N : ℚ) - 1) / (W : ℚ)) =
      ⌊(w : ℚ) * ((N : ℚ) - 1) / (W : ℚ)⌋ := by
    rw [pyInt, if_pos hq0]
  have hwW : (w : ℚ) + 1 ≤ (W : ℚ) := by exact_mod_cast hw
  have hlt : (w : ℚ) * ((N : ℚ) - 1) / (W : ℚ) < (N : ℚ) - 1 := by
    rw [div_lt_iff₀ hW']
    nlinarith [mul_nonneg (by positivity : (0:ℚ) ≤ (w : ℚ)) (by linarith : (0:ℚ) ≤ (N : ℚ) - 1)]
  have hfl : ⌊(w : ℚ) * ((N : ℚ) - 1) / (W : ℚ)⌋ ≤ N - 2 := by
    have h1 : ⌊(w : ℚ) * ((N : ℚ) - 1) / (W : ℚ)⌋ < N - 1 :=
      Int.floor_lt.2 (by push_cast; exact hlt)
    omega
  have h0 : 0 ≤ ⌊(w : ℚ) * ((N : ℚ) - 1) / (W : ℚ)⌋ := Int.floor_nonneg.2 hq0
  refine ⟨?_, ?_, ?_, ?_, ?_⟩
  · rw [hpy]; exact h0
  · rw [hpy]; exact hfl
  · rw [hpy, npClip, max_eq_left h0, min_eq_right hfl]
  · rw [hpy]
    exact sub_nonneg.2 (Int.floor_le _)
  · rw [hpy]
    have h2 := Int.lt_floor_add_one ((w : ℚ) * ((N : ℚ) - 1) / (W : ℚ))
    linarith

/-- Claim C10: inside `gerar_mapas_remap`, for every `N_cols, N_rows ≥ 2`,
`orig_W_cv, orig_H_cv ≥ 1` and in-range destination pixel `(u, v)`, the
truncated cell indices already lie in `[0, N_cols-2]` and `[0, N_rows-2]`
before the clamp, the `np.clip` is a no-op on them, and the fractional
offsets `fx`, `fy` lie in `[0, 1)`. -/
theorem cell_index_clamp_noop (Nc Nr oW oH : ℤ) (u v : ℕ)
    (hNc : 2 ≤ Nc) (hNr : 2 ≤ Nr) (hW : 1 ≤ oW) (hH : 1 ≤ oH)
    (hu : (u : ℤ) < oW) (hv : (v : ℤ) < oH) :
    (0 ≤ pyInt ((u : ℚ) * ((Nc : ℚ) - 1) / (oW : ℚ)) ∧
     pyInt ((u : ℚ) * ((Nc : ℚ) - 1) / (oW : ℚ)) ≤ Nc - 2 ∧
     npClip (pyInt ((u : ℚ) * ((Nc : ℚ) - 1) / (oW : ℚ))) 0 (Nc - 2) =
       pyInt ((u : ℚ) * ((Nc : ℚ) - 1) / (oW : ℚ)) ∧
     0 ≤ (u : ℚ) * ((Nc : ℚ) - 1) / (oW : ℚ) -
         (pyInt ((u : ℚ) * ((Nc : ℚ) - 1) / (oW : ℚ)) : ℚ) ∧
     (u : ℚ) * ((Nc : ℚ) - 1) / (oW : ℚ) -
         (pyInt ((u : ℚ) * ((Nc : ℚ) - 1) / (oW : ℚ)) : ℚ) < 1) ∧
    (0 ≤ pyInt ((v : ℚ) * ((Nr : ℚ) - 1) / (oH : ℚ)) ∧
     pyInt ((v : ℚ) * ((Nr : ℚ) - 1) / (oH : ℚ)) ≤ Nr - 2 ∧
     npClip (pyInt ((v : ℚ) * ((Nr : ℚ) - 1) / (oH : ℚ))) 0 (Nr - 2) =
       pyInt ((v : ℚ) * ((Nr : ℚ) - 1) / (oH : ℚ)) ∧
     0 ≤ (v : ℚ) * ((Nr : ℚ) - 1) / (oH : ℚ) -
         (pyInt ((v : ℚ) * ((Nr : ℚ) - 1) / (oH : ℚ)) : ℚ) ∧
     (v : ℚ) * ((Nr : ℚ) - 1) / (oH : ℚ) -
         (pyInt ((v : ℚ) * ((Nr : ℚ) - 1) / (oH : ℚ)) : ℚ) < 1) :=
  ⟨cell_axis_bounds Nc oW u hNc hW hu, cell_axis_bounds Nr oH v hNr hH hv⟩

/-- A nonnegative in-range integer index succeeds on a Python list and returns
a member of the list. -/
theorem pyGet_some {α : Type} (xs : List α) (i : ℤ) (h0 : 0 ≤ i)
    (h : i < (xs.length : ℤ)) :
    ∃ a, pyGet xs i = some a ∧ a ∈ xs := by
  have hneg : ¬(i < 0) := by omega
  have hlt : i.toNat < xs.length := by omega
  refine ⟨xs.get ⟨i.toNat, hlt⟩, ?_, xs.get_mem _ _⟩
  simp only [pyGet, hneg, if_false]
  rw [if_pos ⟨h0, h⟩]
  exact List.get?_eq_get hlt

/-- A nonnegative in-range pair of indices succeeds on a list of lists. -/
theorem pyGet2_some (malha : List (List (ℚ × ℚ))) (j i : ℤ)
    (hj0 : 0 ≤ j) (hj : j < (malha.length : ℤ))
    (hi : ∀ r ∈ malha, 0 ≤ i ∧ i < (r.length : ℤ)) :
    ∃ p, pyGet2 malha j i = some p := by
  obtain ⟨row, hrow, hmem⟩ := pyGet_some malha j hj0 hj
  obtain ⟨p, hp, -⟩ := pyGet_some row i (hi row hmem).1 (hi row hmem).2
  exact ⟨p, by simp only [pyGet2, hrow, hp]⟩

/-- With `N_cols = N_rows = 2` and a 2×2 mesh, every pixel computation of
`gerar_mapas_remap` succeeds: both clamped cell indices are 0, so only mesh
indices 0 and 1 are accessed. -/
theorem remapPixel_ok_two (malha : List (List (ℚ × ℚ))) (nW nH oW oH : ℤ)
    (hm : malha.length = 2) (hr : ∀ r ∈ malha, r.length = 2)
    (hnW : nW ≠ 0) (hnH : nH ≠ 0) (u v : ℕ) :
    ∃ p, remapPixel malha nW nH oW oH 2 2 u v = Except.ok p := by
  have hclip : ∀ z : ℤ, npClip z 0 (2 - 2) = 0 := by
    intro z
    simp only [npClip]
    omega
  have hlen : (malha.length : ℤ) = 2 := by exact_mod_cast congrArg Nat.cast hm
  have hcol : ∀ k : ℤ, 0 ≤ k → k < 2 → ∀ r ∈ malha, 0 ≤ k ∧ k < (r.length : ℤ) := by
    intro k hk0 hk2 r hrm
    have : r.length = 2 := hr r hrm
    omega
  obtain ⟨p00, h00⟩ := pyGet2_some malha 0 0 le_rfl (by simp [hm]) (hcol 0 le_rfl (by omega))
  obtain ⟨p10, h10⟩ := pyGet2_some malha 0 1 le_rfl (by simp [hm]) (hcol 1 (by omega) (by omega))
  obtain ⟨p01, h01⟩ := pyGet2_some malha 1 0 (by omega) (by simp [hm]) (hcol 0 le_rfl (by omega))
  obtain ⟨p11, h11⟩ := pyGet2_some malha 1 1 (by omega) (by simp [hm]) (hcol 1 (by omega) (by omega))
  rcases hcase : remapPixel malha nW nH oW oH 2 2 u v with e | p
  · exfalso
    simp only [remapPixel, hclip, zero_add, fetchPt, h00, h10, h01, h11,
      except_bind_ok, hnW, hnH, or_self, if_false] at hcase
    exact Except.noConfusion hcase
  · exact ⟨p, rfl⟩

/-- Claim C8: with `N_cols = N_rows = 2` and a 2×2 mesh (the four corner
points), `gerar_mapas_remap` produces a valid field for any positive image
dimensions and nonzero display dimensions: no index error (only mesh indices
0 and 1 are ever accessed), and the two returned maps have `orig_H_cv` rows
of `orig_W_cv` entries each. -/
theorem degenerate_mesh_still_valid (malha : List (List (ℚ × ℚ)))
    (nW nH oW oH : ℤ) (hm : malha.length = 2) (hr : ∀ r ∈ malha, r.length = 2)
    (hW : 1 ≤ oW) (hH : 1 ≤ oH) (hnW : nW ≠ 0) (hnH : nH ≠ 0) :
    ∃ mx my, gerar_mapas_remap malha nW nH oW oH 2 2 = Except.ok (mx, my) ∧
      mx.length = oH.toNat ∧ my.length = oH.toNat ∧
      (∀ r ∈ mx, r.length = oW.toNat) ∧ ∀ r ∈ my, r.length = oW.toNat := by
  have hrow : ∀ v ∈ List.range oH.toNat, ∃ row,
      mapME (fun u => remapPixel malha nW nH oW oH 2 2 u v)
        (List.range oW.toNat) = Except.ok row ∧ row.length = oW.toNat := by
    intro v _
    have hex : ∀ u ∈ List.range oW.toNat, ∃ y,
        remapPixel malha nW nH oW oH 2 2 u v = Except.ok y ∧ True := by
      intro u _
      obtain ⟨p, hp⟩ := remapPixel_ok_two malha nW nH oW oH hm hr hnW hnH u v
      exact ⟨p, hp, trivial⟩
    obtain ⟨row, hrow, hlen, -⟩ := mapME_ok_exists (List.range oW.toNat) hex
    exact ⟨row, hrow, by simpa using hlen⟩
  obtain ⟨rows, hrows, hrowslen, hallrows⟩ :=
    mapME_ok_exists (List.range oH.toNat) hrow
  rw [gerar_mapas_remap, if_neg (by omega)]
  rw [hrows, except_bind_ok]
  refine ⟨_, _, rfl, ?_, ?_, ?_, ?_⟩
  · simpa using hrowslen
  · simpa using hrowslen
  · intro r hrmem
    obtain ⟨row, hrowmem, rfl⟩ := List.mem_map.1 hrmem
    simpa using hallrows row hrowmem
  · intro r hrmem
    obtain ⟨row, hrowmem, rfl⟩ := List.mem_map.1 hrmem
    simpa using hallrows row hrowmem

/-- Claim C8 witness: the theorem applied to the concrete 2×2 corner mesh of
the unit square, a 3×3 source image and 2×2 display dimensions. -/
theorem degenerate_mesh_still_valid_witness :
    ([[((0 : ℚ), (0 : ℚ)), (1, 0)], [(0, 1), (1, 1)]] :
        List (List (ℚ × ℚ))).length = 2 ∧
    (∀ r ∈ ([[((0 : ℚ), (0 : ℚ)), (1, 0)], [(0, 1), (1, 1)]] :
        List (List (ℚ × ℚ))), r.length = 2) ∧
    (1 : ℤ) ≤ 3 ∧ (2 : ℤ) ≠ 0 ∧
    ∃ mx my,
      gerar_mapas_remap [[((0 : ℚ), (0 : ℚ)), (1, 0)], [(0, 1), (1, 1)]]
          2 2 3 3 2 2 = Except.ok (mx, my) ∧
      mx.length = (3 : ℤ).toNat ∧ my.length = (3 : ℤ).toNat ∧
      (∀ r ∈ mx, r.length = (3 : ℤ).toNat) ∧
      ∀ r ∈ my, r.length = (3 : ℤ).toNat :=
  ⟨rfl, by decide, by decide, by decide,
    degenerate_mesh_still_valid _ 2 2 3 3 rfl (by decide) (by decide)
      (by decide) (by decide) (by decide)⟩

/-- When the display dimensions equal the source dimensions, each per-pixel
computation coincides with the no-rescale variant: every scale factor
`· * W / W` (resp. `· * H / H`) is the identity. -/
theorem remapPixel_noscale_eq (malha : List (List (ℚ × ℚ))) (W H Nc Nr : ℤ)
    (hW : (W : ℚ) ≠ 0) (hH : (H : ℚ) ≠ 0) (u v : ℕ) :
    remapPixel malha W H W H Nc Nr u v =
      remapPixel_noscale malha W H Nc Nr u v := by
  have hIf : ¬(W = 0 ∨ H = 0) := by
    push_neg
    exact ⟨by exact_mod_cast hW, by exact_mod_cast hH⟩
  have he : ∀ a : ℚ, a * (W : ℚ) / (W : ℚ) = a := fun a => mul_div_cancel_right₀ a hW
  have he2 : ∀ a : ℚ, a * (H : ℚ) / (H : ℚ) = a := fun a => mul_div_cancel_right₀ a hH
  simp only [remapPixel, remapPixel_noscale, he, he2, hIf, if_false]

/-- Claim C5: if the display dimensions equal the source dimensions
(`nova_W_pyqt = orig_W_cv` and `nova_H_pyqt = orig_H_cv`), the generated field
is exactly the pure bilinear expansion of the mesh with no coordinate
rescaling, for every mesh, mesh resolution and pixel. -/
theorem remap_equals_pure_bilinear_expansion (malha : List (List (ℚ × ℚ)))
    (W H Nc Nr : ℤ) :
    gerar_mapas_remap malha W H W H Nc Nr =
      gerar_mapas_remap_noscale malha W H Nc Nr := by
  unfold gerar_mapas_remap gerar_mapas_remap_noscale
  split
  · rfl
  · have hpoint : ∀ v ∈ List.range H.toNat,
        mapME (fun u => remapPixel malha W H W H Nc Nr u v)
          (List.range W.toNat) =
        mapME (fun u => remapPixel_noscale malha W H Nc Nr u v)
          (List.range W.toNat) := by
      intro v hv
      refine mapME_congr _ ?_
      intro u hu
      have hWpos : 0 < W := by
        have := List.mem_range.1 hu
        omega
      have hHpos : 0 < H := by
        have := List.mem_range.1 hv
        omega
      exact remapPixel_noscale_eq malha W H Nc Nr
        (Int.cast_ne_zero.mpr (by omega)) (Int.cast_ne_zero.mpr (by omega)) u v
    rw [mapME_congr _ hpoint]

set_option maxRecDepth 100000 in
set_option maxHeartbeats 1000000 in
/-- The mesh generated from the straight-edged boundary loop of the 100×100
identity scenario is the uniform 12×12 grid over the square. -/
theorem loopC2_mesh : gerar_malha_12x12 loopC2 = straightMesh := by
  with_unfolding_all decide

set_option maxRecDepth 100000 in
set_option maxHeartbeats 1000000 in
/-- Reading the uniform grid at row `b`, column `a`. -/
theorem straightMesh_get : ∀ b : ℕ, b < 12 → ∀ a : ℕ, a < 12 →
    pyGet2 straightMesh (b : ℤ) (a : ℤ) =
      some ((100 * (a : ℚ)) / 11, (100 * (b : ℚ)) / 11) := by
  with_unfolding_all decide

/-- Reading the uniform grid at integer indices in `[0, 11]`. -/
theorem straightMesh_get_int (b a : ℤ) (hb0 : 0 ≤ b) (hb : b ≤ 11)
    (ha0 : 0 ≤ a) (ha : a ≤ 11) :
    pyGet2 straightMesh b a =
      some ((100 * (a : ℚ)) / 11, (100 * (b : ℚ)) / 11) := by
  have h := straightMesh_get b.toNat (by omega) a.toNat (by omega)
  rw [Int.toNat_of_nonneg hb0, Int.toNat_of_nonneg ha0] at h
  have haq : ((a.toNat : ℕ) : ℚ) = (a : ℚ) := by
    have : (((a.toNat : ℕ) : ℤ) : ℚ) = ((a : ℤ) : ℚ) :=
      congrArg _ (Int.toNat_of_nonneg ha0)
    push_cast at this
    exact this
  have hbq : ((b.toNat : ℕ) : ℚ) = (b : ℚ) := by
    have : (((b.toNat : ℕ) : ℤ) : ℚ) = ((b : ℤ) : ℚ) :=
      congrArg _ (Int.toNat_of_nonneg hb0)
    push_cast at this
    exact this
  rw [h, haq, hbq]

/-- Per-pixel identity on the uniform grid with equal 100×100 display and
source dimensions: destination pixel `(u, v)` maps to source point
`(u, v)` exactly. -/
theorem remapPixel_identity (u v : ℕ) (hu : u < 100) (hv : v < 100) :
    remapPixel straightMesh 100 100 100 100 12 12 u v =
      Except.ok ((u : ℚ), (v : ℚ)) := by
  have hcast : ∀ w : ℕ, (w : ℚ) * (((12 : ℤ) : ℚ) - 1) / ((100 : ℤ) : ℚ) =
      (w : ℚ) * 11 / 100 := by
    intro w
    norm_num
  have hpy : ∀ w : ℕ, pyInt ((w : ℚ) * 11 / 100) = ⌊(w : ℚ) * 11 / 100⌋ :=
    fun w => if_pos (by positivity)
  have hfl : ∀ w : ℕ, w < 100 →
      0 ≤ ⌊(w : ℚ) * 11 / 100⌋ ∧ ⌊(w : ℚ) * 11 / 100⌋ ≤ 10 := by
    intro w hw
    constructor
    · exact Int.floor_nonneg.2 (by positivity)
    · have hlt : (w : ℚ) * 11 / 100 < 11 := by
        rw [div_lt_iff₀ (by norm_num)]
        have : (w : ℚ) ≤ 99 := by exact_mod_cast Nat.lt_succ_iff.1 hw
        nlinarith
      have := Int.floor_lt.2 (show (w : ℚ) * 11 / 100 < ((11 : ℤ) : ℚ) by push_cast; exact hlt)
      omega
  have hc2 : (12 : ℤ) - 2 = 10 := by norm_num
  have hclip : ∀ w : ℕ, w < 100 →
      npClip ⌊(w : ℚ) * 11 / 100⌋ 0 10 = ⌊(w : ℚ) * 11 / 100⌋ := by
    intro w hw
    rw [npClip, max_eq_left (hfl w hw).1, min_eq_right (hfl w hw).2]
  have hIf : ¬((100 : ℤ) = 0 ∨ (100 : ℤ) = 0) := by norm_num
  have hg00 := straightMesh_get_int ⌊(v : ℚ) * 11 / 100⌋ ⌊(u : ℚ) * 11 / 100⌋
    (hfl v hv).1 (by have := (hfl v hv).2; omega)
    (hfl u hu).1 (by have := (hfl u hu).2; omega)
  have hg10 := straightMesh_get_int ⌊(v : ℚ) * 11 / 100⌋ (⌊(u : ℚ) * 11 / 100⌋ + 1)
    (hfl v hv).1 (by have := (hfl v hv).2; omega)
    (by have := (hfl u hu).1; omega) (by have := (hfl u hu).2; omega)
  have hg01 := straightMesh_get_int (⌊(v : ℚ) * 11 / 100⌋ + 1) ⌊(u : ℚ) * 11 / 100⌋
    (by have := (hfl v hv).1; omega) (by have := (hfl v hv).2; omega)
    (hfl u hu).1 (by have := (hfl u hu).2; omega)
  have hg11 := straightMesh_get_int (⌊(v : ℚ) * 11 / 100⌋ + 1) (⌊(u : ℚ) * 11 / 100⌋ + 1)
    (by have := (hfl v hv).1; omega) (by have := (hfl v hv).2; omega)
    (by have := (hfl u hu).1; omega) (by have := (hfl u hu).2; omega)
  simp only [remapPixel, hcast, hpy, hc2, hclip u hu, hclip v hv, fetchPt,
    hg00, hg10, hg01, hg11, except_bind_ok, hIf, if_false]
  refine congrArg Except.ok (Prod.ext ?_ ?_) <;> push_cast <;> ring

/-- Claim C2: for a 100×100 source image with equal display dimensions and the
boundary loop whose corners are the image corners with collinear handles at
1/3 and 2/3 of each straight edge, `gerar_malha_12x12` followed by
`gerar_mapas_remap` yields exactly the identity remap field:
`map_x[v][u] = u` and `map_y[v][u] = v` for every destination pixel. -/
theorem end_to_end_identity_field :
    gerar_mapas_remap (gerar_malha_12x12 loopC2) 100 100 100 100 12 12 =
      Except.ok
        ((List.range 100).map fun (_ : ℕ) =>
            (List.range 100).map fun (u : ℕ) => (u : ℚ),
         (List.range 100).map fun (v : ℕ) =>
            (List.range 100).map fun (_ : ℕ) => (v : ℚ)) := by
  rw [loopC2_mesh, gerar_mapas_remap, if_neg (by norm_num)]
  have htn : (100 : ℤ).toNat = 100 := rfl
  have hrow : ∀ v ∈ List.range (100 : ℤ).toNat,
      mapME (fun u => remapPixel straightMesh 100 100 100 100 12 12 u v)
        (List.range (100 : ℤ).toNat) =
      Except.ok ((List.range 100).map fun (u : ℕ) => ((u : ℚ), (v : ℚ))) := by
    intro v hv
    have hv' : v < 100 := by
      rw [htn] at hv
      exact List.mem_range.1 hv
    rw [htn]
    exact mapME_ok_map _ fun u hu =>
      remapPixel_identity u v (List.mem_range.1 hu) hv'
  rw [mapME_ok_map _ hrow, except_bind_ok]
  refine congrArg Except.ok (Prod.ext ?_ ?_) <;>
  · dsimp only
    rw [List.map_map]
    refine List.map_congr_left fun v hv => ?_
    simp only [Function.comp_apply, List.map_map]
    rfl

/-- Claim C10 witness: the theorem applied at `N_cols = N_rows = 12`,
`orig_W_cv = orig_H_cv = 100` and the concrete destination pixel `(37, 81)`. -/
theorem cell_index_clamp_noop_witness :
    (2 : ℤ) ≤ 12 ∧ (1 : ℤ) ≤ 100 ∧
    ((37 : ℕ) : ℤ) < 100 ∧ ((81 : ℕ) : ℤ) < 100 ∧
    ((0 ≤ pyInt (((37 : ℕ) : ℚ) * (((12 : ℤ) : ℚ) - 1) / ((100 : ℤ) : ℚ)) ∧
      pyInt (((37 : ℕ) : ℚ) * (((12 : ℤ) : ℚ) - 1) / ((100 : ℤ) : ℚ)) ≤ 12 - 2 ∧
      npClip (pyInt (((37 : ℕ) : ℚ) * (((12 : ℤ) : ℚ) - 1) / ((100 : ℤ) : ℚ))) 0
          ((12 : ℤ) - 2) =
        pyInt (((37 : ℕ) : ℚ) * (((12 : ℤ) : ℚ) - 1) / ((100 : ℤ) : ℚ)) ∧
      0 ≤ ((37 : ℕ) : ℚ) * (((12 : ℤ) : ℚ) - 1) / ((100 : ℤ) : ℚ) -
          (pyInt (((37 : ℕ) : ℚ) * (((12 : ℤ) : ℚ) - 1) / ((100 : ℤ) : ℚ)) : ℚ) ∧
      ((37 : ℕ) : ℚ) * (((12 : ℤ) : ℚ) - 1) / ((100 : ℤ) : ℚ) -
          (pyInt (((37 : ℕ) : ℚ) * (((12 : ℤ) : ℚ) - 1) / ((100 : ℤ) : ℚ)) : ℚ) < 1) ∧
     (0 ≤ pyInt (((81 : ℕ) : ℚ) * (((12 : ℤ) : ℚ) - 1) / ((100 : ℤ) : ℚ)) ∧
      pyInt (((81 : ℕ) : ℚ) * (((12 : ℤ) : ℚ) - 1) / ((100 : ℤ) : ℚ)) ≤ 12 - 2 ∧
      npClip (pyInt (((81 : ℕ) : ℚ) * (((12 : ℤ) : ℚ) - 1) / ((100 : ℤ) : ℚ))) 0
          ((12 : ℤ) - 2) =
        pyInt (((81 : ℕ) : ℚ) * (((12 : ℤ) : ℚ) - 1) / ((100 : ℤ) : ℚ)) ∧
      0 ≤ ((81 : ℕ) : ℚ) * (((12 : ℤ) : ℚ) - 1) / ((100 : ℤ) : ℚ) -
          (pyInt (((81 : ℕ) : ℚ) * (((12 : ℤ) : ℚ) - 1) / ((100 : ℤ) : ℚ)) : ℚ) ∧
      ((81 : ℕ) : ℚ) * (((12 : ℤ) : ℚ) - 1) / ((100 : ℤ) : ℚ) -
          (pyInt (((81 : ℕ) : ℚ) * (((12 : ℤ) : ℚ) - 1) / ((100 : ℤ) : ℚ)) : ℚ) < 1)) :=
  ⟨by decide, by decide, by decide, by decide,
    cell_index_clamp_noop 12 12 100 100 37 81 (by decide) (by decide)
      (by decide) (by decide) (by decide) (by decide)⟩
